import Mathlib

/-!
Shallow embedding of the string-analyzer service (src/index.js) and proofs
of the specification claims about it.

The JavaScript source is embedded definition by definition:
strings become `String` / `List Char`, the JS `Map` becomes an
insertion-ordered association list, thrown exceptions become `Except`,
and the SHA-256 digest (computed by the external `crypto` library, not by
code of this repository) is kept abstract as a parameter
`hash : String → String`; every theorem about code that touches the digest
quantifies over that parameter, so it holds for the real SHA-256 in
particular.
-/

namespace StringAnalyzer

/-- Whitespace test matching the ASCII part of the JavaScript regexp
class backslash-s used by `value.trim().split(/\s+/)` in
`computeProperties` (src/index.js line 26). -/
def isWs (c : Char) : Bool :=
  c = ' ' || c = '\t' || c = '\n' || c = '\r' || c = '\x0b' || c = '\x0c'

/-- Character-wise lowercasing, the embedding of JS `toLowerCase()` on the
simple case mapping the spec asks for. -/
def lowerL (l : List Char) : List Char := l.map Char.toLower

/-- Embedding of JS `value.trim()`: drop whitespace from both ends. -/
def jsTrim (l : List Char) : List Char :=
  ((l.dropWhile isWs).reverse.dropWhile isWs).reverse

/-- Embedding of JS `s.split(/\s+/)`: pieces of `s` between maximal runs of
whitespace. On the empty string JS returns a single empty piece; a string
that starts (ends) with whitespace gets a leading (trailing) empty piece. -/
def jsSplitWs : List Char → List (List Char)
  | [] => [[]]
  | c :: rest =>
    if isWs c then
      match rest with
      | [] => [[], []]
      | d :: _ => if isWs d then jsSplitWs rest else [] :: jsSplitWs rest
    else
      match jsSplitWs rest with
      | [] => [[c]]
      | p :: ps => (c :: p) :: ps

/-- One step of the frequency loop in `computeProperties`
(src/index.js lines 22-24): JS `freq.set(char, (freq.get(char) || 0) + 1)`
on an insertion-ordered map — update in place when present, append
otherwise. -/
def bump (m : List (Char × Nat)) (c : Char) : List (Char × Nat) :=
  match m with
  | [] => [(c, 1)]
  | (d, n) :: rest => if d = c then (d, n + 1) :: rest else (d, n) :: bump rest c

/-- The whole frequency table of `computeProperties`: fold `bump` over the
characters of the value in order. -/
def charFreq (l : List Char) : List (Char × Nat) := l.foldl bump []

/-- Lookup in the association-list embedding of the frequency map. -/
def lookupFreq : List (Char × Nat) → Char → Option Nat
  | [], _ => none
  | (d, n) :: rest, c => if d = c then some n else lookupFreq rest c

/-- The property record built by `Storage.computeProperties`
(src/index.js lines 18-38). -/
structure PropertySet where
  length : Nat
  is_palindrome : Bool
  unique_characters : Nat
  word_count : Nat
  sha256_hash : String
  character_frequency_map : List (Char × Nat)
  deriving DecidableEq, Repr

/-- Embedding of `Storage.computeProperties` (src/index.js lines 18-38).
`hash` stands for the external `crypto.createHash("sha256")....digest("hex")`
call; everything else follows the JS line by line. -/
def computeProperties (hash : String → String) (value : String) : PropertySet :=
  let l := value.data
  { length := l.length
  , is_palindrome := lowerL l == lowerL l.reverse
  , unique_characters := (charFreq l).length
  , word_count := (jsSplitWs (jsTrim l)).length
  , sha256_hash := hash value
  , character_frequency_map := charFreq l }

/-- A stored record as built by `Storage.create` (src/index.js lines 45-50). -/
structure StoredString where
  id : String
  value : String
  properties : PropertySet
  created_at : String
  deriving DecidableEq, Repr

/-- The JS `Map` of `Storage` (src/index.js line 15): an insertion-ordered
association list from digest keys to records. -/
abbrev Store := List (String × StoredString)

/-- Embedding of `this.strings.has(k)`. -/
def mapHas (st : Store) (k : String) : Bool := st.any (fun p => p.1 = k)

/-- Embedding of `this.strings.get(k)`. -/
def mapGet (st : Store) (k : String) : Option StoredString :=
  (st.find? (fun p => p.1 = k)).map Prod.snd

/-- Embedding of `this.strings.set(k, v)`: replace in place when the key is
present, append otherwise (JS `Map` keeps insertion order). -/
def mapSet (st : Store) (k : String) (v : StoredString) : Store :=
  if mapHas st k then st.map (fun p => if p.1 = k then (k, v) else p)
  else st ++ [(k, v)]

/-- Embedding of `this.strings.delete(k)`: remove the entry with that key. -/
def mapErase (st : Store) (k : String) : Store :=
  match st with
  | [] => []
  | p :: rest => if p.1 = k then rest else p :: mapErase rest k

/-- Embedding of `Storage.create` (src/index.js lines 40-53). The thrown
`Error("String already exists")` becomes the `Except.error` value; the pair
returns the result together with the store the method leaves behind. `now`
stands for the external `new Date().toISOString()` call. -/
def create (hash : String → String) (st : Store) (value now : String) :
    Except String StoredString × Store :=
  let props := computeProperties hash value
  if mapHas st props.sha256_hash then (Except.error ("String already exists"), st)
  else
    let stored : StoredString :=
      { id := props.sha256_hash, value := value, properties := props, created_at := now }
    (Except.ok stored, mapSet st props.sha256_hash stored)

/-- Embedding of `Storage.delete` (src/index.js lines 59-61): JS
`Map.delete` returns whether the key was present and removes it. -/
def deleteByHash (st : Store) (k : String) : Bool × Store :=
  (mapHas st k, mapErase st k)

/-- The structured filter set handed to `Storage.list` (absent JS object
keys become `none`). -/
structure Filters where
  is_palindrome : Option Bool := none
  min_length : Option Nat := none
  max_length : Option Nat := none
  word_count : Option Nat := none
  contains_character : Option Char := none
  deriving DecidableEq, Repr

/-- The per-record match flag of the loop body of `Storage.list`
(src/index.js lines 66-96): start `true`, each failing present filter sets
it `false`. `contains_character` reaches the engine as a single character
(the HTTP boundary rejects any other length and the natural-language rules
only produce single letters), so key membership is equality with a key of
the frequency map. -/
def recordMatches (f : Filters) (s : StoredString) : Bool :=
  let m := true
  let m := match f.is_palindrome with
    | some b => if s.properties.is_palindrome != b then false else m
    | none => m
  let m := match f.min_length with
    | some n => if s.properties.length < n then false else m
    | none => m
  let m := match f.max_length with
    | some n => if n < s.properties.length then false else m
    | none => m
  let m := match f.word_count with
    | some n => if s.properties.word_count != n then false else m
    | none => m
  let m := match f.contains_character with
    | some c =>
      if !(s.properties.character_frequency_map.any (fun p => p.1 = c)) then false else m
    | none => m
  m

/-- The payload `Storage.list` returns (src/index.js line 99). -/
structure ListResult where
  data : List StoredString
  count : Nat
  filters_applied : Filters
  deriving DecidableEq, Repr

/-- Embedding of `Storage.list` (src/index.js lines 63-100): scan the
stored records in insertion order, keep those whose match flag survives. -/
def listRecords (st : Store) (f : Filters) : ListResult :=
  let results := (st.map Prod.snd).filter (recordMatches f)
  { data := results, count := results.length, filters_applied := f }

/-- Does `l` start with the pattern `pat`? (helper for substring search). -/
def startsWithL : List Char → List Char → Bool
  | [], _ => true
  | _ :: _, [] => false
  | p :: ps, c :: cs => p = c && startsWithL ps cs

/-- Embedding of JS `hay.includes(pat)`: `pat` occurs somewhere in `hay`. -/
def containsSub (pat : List Char) : List Char → Bool
  | [] => startsWithL pat []
  | c :: rest => startsWithL pat (c :: rest) || containsSub pat rest

/-- Decimal value of a digit run, as JS `parseInt(digits, 10)` computes on
the capture of a greedy digit group. -/
def digitsToNat (ds : List Char) : Nat :=
  ds.foldl (fun a c => a * 10 + (c.toNat - 48)) 0

/-- Try the regexp alternative `pat` followed by a capture of one-or-more
digits at the start of `l`; the captured number on success. -/
def matchNumAfter (pat : List Char) (l : List Char) : Option Nat :=
  if startsWithL pat l then
    let ds := (l.drop pat.length).takeWhile (fun c => c.isDigit)
    if ds = [] then none else some (digitsToNat ds)
  else none

/-- Both alternatives of `/longer than (\d+)|more than (\d+)/` at one
position, left alternative first as the regexp engine tries them. -/
def tryLenAt (l : List Char) : Option Nat :=
  match matchNumAfter ("longer than ".data) l with
  | some n => some n
  | none => matchNumAfter ("more than ".data) l

/-- Embedding of `lowerQuery.match(/longer than (\d+)|more than (\d+)/)`
(src/index.js line 178): the leftmost position where either alternative
matches wins, and the numeric capture is returned. -/
def findLenMatch : List Char → Option Nat
  | [] => none
  | c :: rest =>
    match tryLenAt (c :: rest) with
    | some n => some n
    | none => findLenMatch rest

/-- The regexp `/letter ([a-z])/` at one position: the literal text
`letter ` followed by one lowercase letter, which is captured. -/
def tryLetterAt (l : List Char) : Option Char :=
  if startsWithL ("letter ".data) l then
    match l.drop 7 with
    | c :: _ => if 'a' ≤ c ∧ c ≤ 'z' then some c else none
    | [] => none
  else none

/-- Embedding of `lowerQuery.match(/letter ([a-z])/)`
(src/index.js line 184): leftmost match wins. -/
def findLetterMatch : List Char → Option Char
  | [] => none
  | c :: rest =>
    match tryLetterAt (c :: rest) with
    | some x => some x
    | none => findLetterMatch rest

/-- The keyword rule of src/index.js lines 170-172: "palindromic" or
"palindrome" present sets `is_palindrome` true. -/
def nlRulePalindrome (lq : List Char) (f : Filters) : Filters :=
  if containsSub ("palindromic".data) lq || containsSub ("palindrome".data) lq
  then { f with is_palindrome := some true } else f

/-- The keyword rule of src/index.js lines 174-176: "single word" or
"one word" present sets `word_count` 1. -/
def nlRuleSingleWord (lq : List Char) (f : Filters) : Filters :=
  if containsSub ("single word".data) lq || containsSub ("one word".data) lq
  then { f with word_count := some 1 } else f

/-- The length rule of src/index.js lines 178-182: a "longer than N" or
"more than N" match sets `min_length` to N + 1. -/
def nlRuleLen (lq : List Char) (f : Filters) : Filters :=
  match findLenMatch lq with
  | some n => { f with min_length := some (n + 1) }
  | none => f

/-- The letter rule of src/index.js lines 184-187: a "letter X" match sets
`contains_character` to the captured letter. -/
def nlRuleLetter (lq : List Char) (f : Filters) : Filters :=
  match findLetterMatch lq with
  | some c => { f with contains_character := some c }
  | none => f

/-- The vowel rule of src/index.js lines 189-191: "vowel" present sets
`contains_character` to the letter a. -/
def nlRuleVowel (lq : List Char) (f : Filters) : Filters :=
  if containsSub ("vowel".data) lq then { f with contains_character := some 'a' } else f

/-- The z rule of src/index.js lines 193-195: a "z" anywhere in the query
sets `contains_character` to z. -/
def nlRuleZ (lq : List Char) (f : Filters) : Filters :=
  if lq.contains 'z' then { f with contains_character := some 'z' } else f

/-- The filter object `parseNaturalQuery` accumulates
(src/index.js lines 167-195): the six rule statements applied to the empty
object in source order; the later `contains_character` rules overwrite the
earlier ones. -/
def buildNLFilters (query : String) : Filters :=
  let lq := lowerL query.data
  nlRuleZ lq (nlRuleVowel lq (nlRuleLetter lq (nlRuleLen lq
    (nlRuleSingleWord lq (nlRulePalindrome lq {})))))

/-- Embedding of `Object.keys(filters).length === 0`
(src/index.js line 197): no rule put a key into the object. -/
def filtersIsEmpty (f : Filters) : Bool :=
  f.is_palindrome.isNone && f.min_length.isNone && f.max_length.isNone &&
    f.word_count.isNone && f.contains_character.isNone

/-- Embedding of the conflict test of src/index.js lines 199-203:
`filters.min_length && filters.max_length && filters.min_length >
filters.max_length`, with JS truthiness (the number 0 is falsy). -/
def conflictFire (f : Filters) : Bool :=
  match f.min_length, f.max_length with
  | some m, some M => m != 0 && M != 0 && decide (M < m)
  | _, _ => false

/-- Embedding of `parseNaturalQuery` (src/index.js lines 166-208):
`Except.ok none` is the JS `null` return, `Except.error` the thrown
`Error("Conflicting filters")`. -/
def parseNaturalQuery (query : String) : Except String (Option Filters) :=
  let f := buildNLFilters query
  if filtersIsEmpty f then Except.ok none
  else if conflictFire f then Except.error ("Conflicting filters")
  else Except.ok (some f)

/-- HTTP methods used by the app. -/
inductive Method
  | get
  | post
  | delete
  deriving DecidableEq, Repr

/-- One segment of an Express route pattern: a literal, or a `:name`
parameter that matches any one path segment. -/
inductive Seg
  | lit (s : String)
  | param (name : String)
  deriving DecidableEq, Repr

/-- Tags for the five handlers registered on the app (src/index.js lines
105, 127, 139, 210, 240). -/
inductive RouteTag
  | createString
  | getStringByValue
  | listStrings
  | nlFilter
  | deleteString
  deriving DecidableEq, Repr

/-- The routes in the order `src/index.js` registers them; Express
dispatches a request to the first registered route that matches. -/
def routes : List (Method × List Seg × RouteTag) :=
  [ (Method.post, [Seg.lit ("strings")], RouteTag.createString)
  , (Method.get, [Seg.lit ("strings"), Seg.param ("value")], RouteTag.getStringByValue)
  , (Method.get, [Seg.lit ("strings")], RouteTag.listStrings)
  , (Method.get, [Seg.lit ("strings"), Seg.lit ("filter-by-natural-language")],
      RouteTag.nlFilter)
  , (Method.delete, [Seg.lit ("strings"), Seg.param ("value")], RouteTag.deleteString) ]

/-- Does a route pattern match a concrete path, segment by segment? -/
def segsMatch : List Seg → List String → Bool
  | [], [] => true
  | Seg.lit s :: ps, x :: xs => s = x && segsMatch ps xs
  | Seg.param _ :: ps, _ :: xs => segsMatch ps xs
  | _, _ => false

/-- Express dispatch: the first registered route whose method and pattern
match the request. -/
def dispatch (m : Method) (path : List String) : Option RouteTag :=
  (routes.find? (fun r => r.1 = m && segsMatch r.2.1 path)).map (fun r => r.2.2)

/-- The JSON responses the handlers produce. -/
inductive HttpResponse
  | recordJson (status : Nat) (r : StoredString)
  | errorJson (status : Nat) (msg : String)
  | listJson (status : Nat) (result : ListResult)
  | nlJson (status : Nat) (result : ListResult) (original : String) (parsed : Filters)
  | noContent (status : Nat)
  deriving DecidableEq, Repr

/-- Embedding of the `GET /strings/:value` handler (src/index.js lines
127-137): recompute the digest of the path value and look it up. -/
def handleGetByValue (hash : String → String) (st : Store) (value : String) :
    HttpResponse :=
  let props := computeProperties hash value
  match mapGet st props.sha256_hash with
  | none => HttpResponse.errorJson 404 ("String does not exist in the system")
  | some stored => HttpResponse.recordJson 200 stored

/-- Embedding of the `GET /strings/filter-by-natural-language` handler
(src/index.js lines 210-238): a missing or falsy `query` and a `null`
parse give 400, a thrown conflict gives 422, otherwise the list result is
returned with the interpreted query attached. -/
def handleNL (st : Store) (query : Option String) : HttpResponse :=
  match query with
  | none => HttpResponse.errorJson 400 ("Unable to parse natural language query")
  | some q =>
    if q = "" then HttpResponse.errorJson 400 ("Unable to parse natural language query")
    else
      match parseNaturalQuery q with
      | Except.error _ =>
        HttpResponse.errorJson 422 ("Query parsed but resulted in conflicting filters")
      | Except.ok none =>
        HttpResponse.errorJson 400 ("Unable to parse natural language query")
      | Except.ok (some f) => HttpResponse.nlJson 200 (listRecords st f) q f

/-- The store mutations reachable through `Storage`: a create (with the
timestamp the clock would supply) or a delete of some digest key. -/
inductive StoreOp
  | createOp (value now : String)
  | deleteOp (key : String)

/-- Run one mutation against the store, keeping the store a failed create
leaves behind (the JS method throws before touching the map). -/
def applyOp (hash : String → String) (st : Store) : StoreOp → Store
  | StoreOp.createOp v now => (create hash st v now).2
  | StoreOp.deleteOp k => (deleteByHash st k).2

/-- The store state a sequence of mutations reaches from the empty store. -/
def runOps (hash : String → String) (ops : List StoreOp) : Store :=
  ops.foldl (applyOp hash) []

/-- The storage invariant of the spec: every record's `id` is its
`properties.sha256_hash`, it is stored under exactly that key, and keys
are pairwise distinct (at most one record per digest). -/
def storeInv (st : Store) : Prop :=
  (∀ p ∈ st, p.2.id = p.2.properties.sha256_hash ∧ p.1 = p.2.id) ∧
    (st.map Prod.fst).Nodup

/-- Spec-side counter of whitespace-delimited tokens: number of maximal
runs of non-whitespace characters, written independently of `jsSplitWs`.
The flag says whether the scan is currently inside a token. -/
def tokenCountAux : Bool → List Char → Nat
  | _, [] => 0
  | inTok, c :: rest =>
    if isWs c then tokenCountAux false rest
    else (if inTok then 0 else 1) + tokenCountAux true rest

/-- Number of whitespace-delimited tokens of `l` (spec wording of the
word-count rule). -/
def tokenCount (l : List Char) : Nat := tokenCountAux false l

/-- Number of separator runs `jsSplitWs` cuts at, following its recursion
structure; used to relate the split length to the token count. -/
def wsRuns : List Char → Nat
  | [] => 0
  | c :: rest =>
    if isWs c then
      match rest with
      | [] => 1
      | d :: _ => if isWs d then wsRuns rest else 1 + wsRuns rest
    else wsRuns rest

/-- The first character, if any, is not whitespace. -/
def noLeadWs : List Char → Bool
  | [] => true
  | c :: _ => !isWs c

/-- The last character, if any, is not whitespace. -/
def noTrailWs : List Char → Bool
  | [] => true
  | [c] => !isWs c
  | _ :: rest => noTrailWs rest

lemma jsSplitWs_cons (c : Char) (rest : List Char) :
    jsSplitWs (c :: rest) =
      if isWs c then
        (match rest with
          | [] => [[], []]
          | d :: _ => if isWs d then jsSplitWs rest else [] :: jsSplitWs rest)
      else
        (match jsSplitWs rest with
          | [] => [[c]]
          | p :: ps => (c :: p) :: ps) := rfl

lemma wsRuns_cons (c : Char) (rest : List Char) :
    wsRuns (c :: rest) =
      if isWs c then
        (match rest with
          | [] => 1
          | d :: _ => if isWs d then wsRuns rest else 1 + wsRuns rest)
      else wsRuns rest := rfl

lemma tokenCountAux_cons (b : Bool) (c : Char) (rest : List Char) :
    tokenCountAux b (c :: rest) =
      if isWs c then tokenCountAux false rest
      else (if b then 0 else 1) + tokenCountAux true rest := rfl

lemma jsSplitWs_length : ∀ l : List Char, (jsSplitWs l).length = wsRuns l + 1 := by
  intro l
  induction l with
  | nil => rfl
  | cons c rest ih =>
    rw [jsSplitWs_cons, wsRuns_cons]
    by_cases h : isWs c
    · rw [if_pos h, if_pos h]
      cases rest with
      | nil => rfl
      | cons d tl =>
        by_cases h2 : isWs d
        · simpa [h2] using ih
        · simp [h2]
          omega
    · rw [if_neg h, if_neg h]
      cases hsp : jsSplitWs rest with
      | nil => rw [hsp] at ih; simp at ih
      | cons p ps =>
        rw [hsp] at ih
        simpa using ih

lemma wsRuns_eq_aux_true : ∀ l : List Char, noTrailWs l = true →
    wsRuns l = tokenCountAux true l := by
  intro l
  induction l with
  | nil => intro _; rfl
  | cons c rest ih =>
    intro h
    rw [wsRuns_cons, tokenCountAux_cons]
    cases rest with
    | nil =>
      have hc : isWs c = false := by simpa [noTrailWs] using h
      simp [hc, tokenCountAux, wsRuns]
    | cons d tl =>
      have h2 : noTrailWs (d :: tl) = true := by simpa [noTrailWs] using h
      have ihe := ih h2
      by_cases hc : isWs c
      · rw [if_pos hc, if_pos hc]
        show (if isWs d = true then wsRuns (d :: tl) else 1 + wsRuns (d :: tl)) =
          tokenCountAux false (d :: tl)
        by_cases hd : isWs d
        · rw [if_pos hd, tokenCountAux_cons, if_pos hd]
          rw [tokenCountAux_cons, if_pos hd] at ihe
          exact ihe
        · rw [if_neg hd, tokenCountAux_cons, if_neg hd]
          rw [tokenCountAux_cons, if_neg hd] at ihe
          simp at ihe ⊢
          omega
      · rw [if_neg hc, if_neg hc]
        simpa using ihe

lemma noLeadWs_dropWhile (l : List Char) : noLeadWs (l.dropWhile isWs) = true := by
  induction l with
  | nil => rfl
  | cons c rest ih =>
    by_cases h : isWs c
    · rw [List.dropWhile_cons_of_pos (by simpa using h)]
      exact ih
    · rw [List.dropWhile_cons_of_neg (by simpa using h)]
      simp [noLeadWs, h]

lemma noTrailWs_concat (c : Char) : ∀ xs : List Char,
    noTrailWs (xs ++ [c]) = !isWs c := by
  intro xs
  induction xs with
  | nil => rfl
  | cons a as ih =>
    cases as with
    | nil => rfl
    | cons b bs => simpa [noTrailWs] using ih

lemma noTrailWs_reverse (m : List Char) : noTrailWs m.reverse = noLeadWs m := by
  cases m with
  | nil => rfl
  | cons c r => simp [List.reverse_cons, noTrailWs_concat, noLeadWs]

lemma noLeadWs_reverse (m : List Char) : noLeadWs m.reverse = noTrailWs m := by
  have h := noTrailWs_reverse m.reverse
  rw [List.reverse_reverse] at h
  exact h.symm

lemma noTrailWs_dropWhile : ∀ l : List Char, noTrailWs l = true →
    noTrailWs (l.dropWhile isWs) = true := by
  intro l
  induction l with
  | nil => intro _; rfl
  | cons c rest ih =>
    intro h
    by_cases hc : isWs c
    · rw [List.dropWhile_cons_of_pos (by simpa using hc)]
      cases rest with
      | nil => simp [noTrailWs, hc] at h
      | cons d tl => exact ih (by simpa [noTrailWs] using h)
    · rwa [List.dropWhile_cons_of_neg (by simpa using hc)]

lemma jsTrim_noLeadWs (l : List Char) : noLeadWs (jsTrim l) = true := by
  unfold jsTrim
  rw [noLeadWs_reverse]
  exact noTrailWs_dropWhile _ (by rw [noTrailWs_reverse]; exact noLeadWs_dropWhile l)

lemma jsTrim_noTrailWs (l : List Char) : noTrailWs (jsTrim l) = true := by
  unfold jsTrim
  rw [noTrailWs_reverse]
  exact noLeadWs_dropWhile _

lemma splitLen_eq_tokenCount (l : List Char) (h : jsTrim l ≠ []) :
    (jsSplitWs (jsTrim l)).length = tokenCount (jsTrim l) := by
  have h1 := jsTrim_noLeadWs l
  have h2 := jsTrim_noTrailWs l
  rw [jsSplitWs_length, wsRuns_eq_aux_true _ h2]
  cases ht : jsTrim l with
  | nil => exact absurd ht h
  | cons c rest =>
    rw [ht] at h1
    have hc : ¬ (isWs c = true) := by
      simp [noLeadWs] at h1
      simp [h1]
    show tokenCountAux true (c :: rest) + 1 = tokenCountAux false (c :: rest)
    rw [tokenCountAux_cons, tokenCountAux_cons, if_neg hc, if_neg hc]
    simp
    omega

/-- Claim C4: for every string value, `is_palindrome` is true exactly when
the lowercase form of the value equals the lowercase form of the reversal
of its character sequence, with no stripping of whitespace or punctuation;
in particular it holds for "Level" and fails for "level " (trailing
space). -/
theorem is_palindrome_spec :
    (∀ (hash : String → String) (v : String),
      (computeProperties hash v).is_palindrome = true ↔
        lowerL v.data = lowerL v.data.reverse)
    ∧ (computeProperties (fun s => s) ("Level")).is_palindrome = true
    ∧ (computeProperties (fun s => s) ("level ")).is_palindrome = false := by
  refine ⟨?_, by decide, by decide⟩
  intro hash v
  simp [computeProperties]

/-- Claim C5: `word_count` equals the number of whitespace-delimited
tokens of the value after trimming boundary whitespace (splitting on runs
of whitespace), and every value that is empty after trimming — the empty
string and all-whitespace strings included — yields word count 1; in
particular "hello world" gives 2 and "   " gives 1. -/
theorem word_count_spec :
    (∀ (hash : String → String) (v : String),
      (jsTrim v.data = [] → (computeProperties hash v).word_count = 1) ∧
      (jsTrim v.data ≠ [] →
        (computeProperties hash v).word_count = tokenCount (jsTrim v.data)))
    ∧ (computeProperties (fun s => s) ("hello world")).word_count = 2
    ∧ (computeProperties (fun s => s) ("   ")).word_count = 1 := by
  refine ⟨?_, by decide, by decide⟩
  intro hash v
  constructor
  · intro he
    show (jsSplitWs (jsTrim v.data)).length = 1
    rw [he]
    rfl
  · intro hne
    exact splitLen_eq_tokenCount v.data hne

/-- Witness for C5 at concrete inputs: "a b" is nonempty after trimming
and its word count is its token count; " " trims to empty and gets word
count 1. -/
theorem word_count_spec_witness :
    (computeProperties (fun s => s) ("a b")).word_count = tokenCount (jsTrim ("a b".data))
    ∧ (computeProperties (fun s => s) (" ")).word_count = 1 :=
  ⟨((word_count_spec.1 (fun s => s) ("a b")).2 (by decide)),
   ((word_count_spec.1 (fun s => s) (" ")).1 (by decide))⟩

lemma lookupFreq_bump (m : List (Char × Nat)) (c x : Char) :
    lookupFreq (bump m c) x =
      if x = c then some ((lookupFreq m c).getD 0 + 1) else lookupFreq m x := by
  induction m with
  | nil =>
    by_cases h : x = c
    · subst h
      simp [bump, lookupFreq]
    · have h2 : ¬ c = x := fun hh => h hh.symm
      simp [bump, lookupFreq, h, h2]
  | cons p rest ih =>
    obtain ⟨d, n⟩ := p
    by_cases hdc : d = c
    · subst hdc
      by_cases hx : x = d
      · subst hx
        simp [bump, lookupFreq]
      · have hx2 : ¬ d = x := fun hh => hx hh.symm
        simp [bump, lookupFreq, hx, hx2]
    · by_cases hdx : d = x
      · subst hdx
        simp [bump, lookupFreq, hdc]
      · simp [bump, lookupFreq, hdc, hdx, ih]

lemma lookupFreq_foldl (l : List Char) : ∀ (m : List (Char × Nat)) (x : Char),
    lookupFreq (l.foldl bump m) x =
      if l.count x = 0 then lookupFreq m x
      else some ((lookupFreq m x).getD 0 + l.count x) := by
  induction l with
  | nil => intro m x; simp
  | cons c rest ih =>
    intro m x
    rw [List.foldl_cons, ih (bump m c) x, lookupFreq_bump]
    by_cases hx : x = c
    · subst hx
      by_cases h0 : rest.count x = 0 <;> (simp [List.count_cons, h0]; try omega)
    · have : ¬ (c = x) := fun h => hx h.symm
      simp [List.count_cons, this, hx]

lemma lookupFreq_charFreq (l : List Char) (x : Char) :
    lookupFreq (charFreq l) x =
      if l.count x = 0 then none else some (l.count x) := by
  rw [charFreq, lookupFreq_foldl]
  simp [lookupFreq]

lemma mem_keys_bump (m : List (Char × Nat)) (c x : Char) :
    x ∈ (bump m c).map Prod.fst ↔ x ∈ m.map Prod.fst ∨ x = c := by
  induction m with
  | nil => simp [bump]
  | cons p rest ih =>
    obtain ⟨d, n⟩ := p
    by_cases hdc : d = c
    · subst hdc
      by_cases hx : x = d <;> simp [bump, hx]
    · simp [bump, hdc, ih]
      tauto

lemma keys_bump_of_mem (m : List (Char × Nat)) (c : Char)
    (h : c ∈ m.map Prod.fst) : (bump m c).map Prod.fst = m.map Prod.fst := by
  induction m with
  | nil => simp at h
  | cons p rest ih =>
    obtain ⟨d, n⟩ := p
    by_cases hdc : d = c
    · subst hdc
      simp [bump]
    · have hc : c ∈ rest.map Prod.fst := by
        simp at h
        rcases h with h | h
        · exact absurd h.symm hdc
        · simpa using h
      simp [bump, hdc, ih hc]

lemma keys_bump_of_not_mem (m : List (Char × Nat)) (c : Char)
    (h : c ∉ m.map Prod.fst) :
    (bump m c).map Prod.fst = m.map Prod.fst ++ [c] := by
  induction m with
  | nil => simp [bump]
  | cons p rest ih =>
    obtain ⟨d, n⟩ := p
    simp at h
    by_cases hdc : d = c
    · exact absurd hdc.symm h.1
    · simp [bump, hdc, ih (by simpa using h.2)]

lemma keys_foldl_nodup (l : List Char) : ∀ m : List (Char × Nat),
    (m.map Prod.fst).Nodup → ((l.foldl bump m).map Prod.fst).Nodup := by
  induction l with
  | nil => intro m h; simpa using h
  | cons c rest ih =>
    intro m h
    rw [List.foldl_cons]
    apply ih
    by_cases hc : c ∈ m.map Prod.fst
    · rwa [keys_bump_of_mem m c hc]
    · rw [keys_bump_of_not_mem m c hc]
      simp [List.nodup_append, h]
      intro a ha
      exact hc (List.mem_map_of_mem Prod.fst ha)

lemma mem_keys_foldl (l : List Char) : ∀ (m : List (Char × Nat)) (x : Char),
    x ∈ (l.foldl bump m).map Prod.fst ↔ x ∈ m.map Prod.fst ∨ x ∈ l := by
  induction l with
  | nil => intro m x; simp
  | cons c rest ih =>
    intro m x
    rw [List.foldl_cons, ih, mem_keys_bump]
    simp
    tauto

lemma charFreq_keys_nodup (l : List Char) : ((charFreq l).map Prod.fst).Nodup :=
  keys_foldl_nodup l [] (by simp)

lemma mem_keys_charFreq (l : List Char) (x : Char) :
    x ∈ (charFreq l).map Prod.fst ↔ x ∈ l := by
  rw [charFreq, mem_keys_foldl]
  simp

lemma charFreq_length (l : List Char) : (charFreq l).length = l.toFinset.card := by
  have h1 : (charFreq l).length = ((charFreq l).map Prod.fst).length := by simp
  have h2 : ((charFreq l).map Prod.fst).toFinset = l.toFinset := by
    ext x
    rw [List.mem_toFinset, List.mem_toFinset, mem_keys_charFreq]
  rw [h1, ← List.toFinset_card_of_nodup (charFreq_keys_nodup l), h2]

/-- Claim C6: the character frequency map sends each character occurring
in the value (case-sensitively) to its exact occurrence count and has no
other keys, and `unique_characters` is the number of distinct characters;
"aabb" gives 2 unique characters and the map a ↦ 2, b ↦ 2. -/
theorem character_frequency_spec :
    (∀ (hash : String → String) (v : String) (c : Char) (n : Nat),
      lookupFreq (computeProperties hash v).character_frequency_map c = some n ↔
        (v.data.count c = n ∧ 0 < n))
    ∧ (∀ (hash : String → String) (v : String),
      (computeProperties hash v).unique_characters = v.data.toFinset.card)
    ∧ (computeProperties (fun s => s) ("aabb")).unique_characters = 2
    ∧ (computeProperties (fun s => s) ("aabb")).character_frequency_map =
        [('a', 2), ('b', 2)] := by
  refine ⟨?_, ?_, by decide, by decide⟩
  · intro hash v c n
    show lookupFreq (charFreq v.data) c = some n ↔ _
    rw [lookupFreq_charFreq]
    by_cases h0 : v.data.count c = 0 <;> simp [h0] <;> omega
  · intro hash v
    show (charFreq v.data).length = _
    exact charFreq_length v.data

lemma mapHas_of_mem : ∀ {st : Store} {p : String × StoredString},
    p ∈ st → mapHas st p.1 = true := by
  intro st p hp
  induction st with
  | nil => cases hp
  | cons q rest ih =>
    show (decide (q.1 = p.1) || mapHas rest p.1) = true
    rcases List.mem_cons.mp hp with h | h
    · subst h
      simp
    · rw [ih h]
      simp

lemma mapSet_fresh (st : Store) (k : String) (v : StoredString)
    (h : mapHas st k = false) : mapSet st k v = st ++ [(k, v)] := by
  rw [mapSet, if_neg (by simp [h])]

lemma mapErase_sublist (st : Store) (k : String) : (mapErase st k).Sublist st := by
  induction st with
  | nil => simp [mapErase]
  | cons p rest ih =>
    rw [mapErase]
    by_cases h : p.1 = k
    · rw [if_pos h]
      exact List.sublist_cons_of_sublist p (List.Sublist.refl rest)
    · rw [if_neg h]
      exact List.Sublist.cons₂ p ih

lemma mapGet_append_fresh (st : Store) (k : String) (v : StoredString)
    (h : mapHas st k = false) : mapGet (st ++ [(k, v)]) k = some v := by
  induction st with
  | nil => simp [mapGet, List.find?]
  | cons p rest ih =>
    have hcons : mapHas (p :: rest) k = (decide (p.1 = k) || mapHas rest k) := rfl
    rw [hcons] at h
    have h1 : decide (p.1 = k) = false ∧ mapHas rest k = false := by
      constructor
      · cases hd : decide (p.1 = k)
        · rfl
        · rw [hd] at h
          simp at h
      · cases hd : mapHas rest k
        · rfl
        · rw [hd] at h
          simp at h
    rw [List.cons_append]
    have hfind : mapGet (p :: (rest ++ [(k, v)])) k = mapGet (rest ++ [(k, v)]) k := by
      rw [mapGet, mapGet, List.find?_cons_of_neg]
      simpa using h1.1
    rw [hfind]
    exact ih h1.2

lemma storeInv_empty : storeInv [] := by
  constructor
  · intro p hp
    simp at hp
  · simp

lemma storeInv_create (hash : String → String) (st : Store) (v now : String)
    (h : storeInv st) : storeInv (create hash st v now).2 := by
  by_cases hh : mapHas st ((computeProperties hash v).sha256_hash) = true
  · have : (create hash st v now).2 = st := by
      simp only [create, hh, if_true]
    rwa [this]
  · have hf : mapHas st ((computeProperties hash v).sha256_hash) = false := by
      simpa using hh
    have : (create hash st v now).2 =
        st ++ [((computeProperties hash v).sha256_hash,
          { id := (computeProperties hash v).sha256_hash, value := v
          , properties := computeProperties hash v, created_at := now })] := by
      simp only [create, hf, Bool.false_eq_true, if_false]
      exact mapSet_fresh st _ _ hf
    rw [this]
    constructor
    · intro p hp
      rcases List.mem_append.mp hp with hmem | hmem
      · exact h.1 p hmem
      · simp at hmem
        subst hmem
        exact ⟨rfl, rfl⟩
    · rw [List.map_append]
      simp [List.nodup_append, h.2]
      intro hk hmem
      have := mapHas_of_mem (p := ((computeProperties hash v).sha256_hash, hk)) hmem
      rw [this] at hf
      exact Bool.true_eq_false.mp hf

lemma storeInv_delete (st : Store) (k : String) (h : storeInv st) :
    storeInv (deleteByHash st k).2 := by
  have hs : (mapErase st k).Sublist st := mapErase_sublist st k
  constructor
  · intro p hp
    exact h.1 p (hs.subset hp)
  · exact ((hs.map Prod.fst).nodup h.2)

/-- Claim C2: in every store state reachable from the empty store by any
sequence of create and delete operations, each stored record has
`id = properties.sha256_hash`, is stored under exactly that id as its map
key, and keys are pairwise distinct, so at most one record exists per
digest. -/
theorem store_invariant_reachable :
    ∀ (hash : String → String) (ops : List StoreOp), storeInv (runOps hash ops) := by
  intro hash ops
  suffices h : ∀ st, storeInv st → storeInv (ops.foldl (applyOp hash) st) by
    exact h [] storeInv_empty
  induction ops with
  | nil => intro st h; exact h
  | cons op rest ih =>
    intro st h
    rw [List.foldl_cons]
    apply ih
    cases op with
    | createOp v now => exact storeInv_create hash st v now h
    | deleteOp k => exact storeInv_delete st k h

/-- Claim C3: `create` fails with the already-exists error exactly when a
record with the value's digest is in the store, leaves the store unchanged
on that failure, and on success stores and returns a new record carrying
the creation timestamp. -/
theorem create_spec :
    ∀ (hash : String → String) (st : Store) (v now : String),
      ((create hash st v now).1 = Except.error ("String already exists") ↔
        mapHas st ((computeProperties hash v).sha256_hash) = true)
      ∧ (mapHas st ((computeProperties hash v).sha256_hash) = true →
          (create hash st v now).2 = st)
      ∧ (mapHas st ((computeProperties hash v).sha256_hash) = false →
          ∃ stored : StoredString,
            (create hash st v now).1 = Except.ok stored
            ∧ stored.created_at = now
            ∧ stored.value = v
            ∧ stored.properties = computeProperties hash v
            ∧ (create hash st v now).2 =
                st ++ [((computeProperties hash v).sha256_hash, stored)]
            ∧ mapGet (create hash st v now).2
                ((computeProperties hash v).sha256_hash) = some stored) := by
  intro hash st v now
  by_cases hh : mapHas st ((computeProperties hash v).sha256_hash) = true
  · refine ⟨by simp [create, hh], fun _ => by simp [create, hh], fun hf => ?_⟩
    rw [hh] at hf
    exact absurd hf (by simp)
  · have hf : mapHas st ((computeProperties hash v).sha256_hash) = false := by
      simpa using hh
    refine ⟨by simp [create, hf], fun ht => absurd ht hh, fun _ => ?_⟩
    refine ⟨{ id := (computeProperties hash v).sha256_hash, value := v
            , properties := computeProperties hash v, created_at := now }
          , by simp [create, hf], rfl, rfl, rfl, ?_, ?_⟩
    · simp only [create, hf, Bool.false_eq_true, if_false]
      exact mapSet_fresh st _ _ hf
    · have h2 : (create hash st v now).2 =
          st ++ [((computeProperties hash v).sha256_hash,
            { id := (computeProperties hash v).sha256_hash, value := v
            , properties := computeProperties hash v, created_at := now })] := by
        simp only [create, hf, Bool.false_eq_true, if_false]
        exact mapSet_fresh st _ _ hf
      rw [h2]
      exact mapGet_append_fresh st _ _ hf

/-- Spec-side matching predicate, following the claim wording: a record
matches a filter set when it satisfies every filter present — palindrome
equality, length at least `min_length`, length at most `max_length`,
word-count equality, `contains_character` membership among the keys of the
frequency map — and an absent filter imposes no constraint. -/
def specMatches (f : Filters) (r : StoredString) : Prop :=
  (match f.is_palindrome with
    | some b => r.properties.is_palindrome = b
    | none => True)
  ∧ (match f.min_length with
    | some n => n ≤ r.properties.length
    | none => True)
  ∧ (match f.max_length with
    | some n => r.properties.length ≤ n
    | none => True)
  ∧ (match f.word_count with
    | some n => r.properties.word_count = n
    | none => True)
  ∧ (match f.contains_character with
    | some c => c ∈ (r.properties.character_frequency_map.map Prod.fst)
    | none => True)

lemma flagStep_iff (P : Prop) [Decidable P] (m : Bool) :
    (if P then false else m) = true ↔ ¬ P ∧ m = true := by
  by_cases h : P <;> simp [h]

set_option maxHeartbeats 1000000 in
lemma recordMatches_iff (f : Filters) (r : StoredString) :
    recordMatches f r = true ↔ specMatches f r := by
  obtain ⟨op, omin, omax, owc, occ⟩ := f
  cases op <;> cases omin <;> cases omax <;> cases owc <;> cases occ <;>
    simp only [recordMatches, specMatches, flagStep_iff] <;>
    simp [Nat.not_lt, List.mem_map, Nat.lt_iff_add_one_le] <;>
    tauto

/-- Claim C7: `list` returns exactly the stored records satisfying every
present filter (conjunction semantics), absent filters impose no
constraint, an empty filter set matches every record, the reported count
is the number of returned records, and the filter set with `min_length` 5
and `max_length` 3 matches zero records in every store. -/
theorem list_filters_spec :
    ∀ (st : Store) (f : Filters),
      (∀ r : StoredString,
        r ∈ (listRecords st f).data ↔ r ∈ st.map Prod.snd ∧ specMatches f r)
      ∧ (listRecords st f).count = (listRecords st f).data.length
      ∧ (listRecords st ({} : Filters)).data = st.map Prod.snd
      ∧ (listRecords st { min_length := some 5, max_length := some 3 }).count = 0 := by
  intro st f
  refine ⟨?_, rfl, ?_, ?_⟩
  · intro r
    show r ∈ (st.map Prod.snd).filter (recordMatches f) ↔ _
    rw [List.mem_filter, recordMatches_iff]
  · show (st.map Prod.snd).filter (recordMatches ({} : Filters)) = st.map Prod.snd
    rw [List.filter_eq_self]
    intro a _
    rfl
  · show ((st.map Prod.snd).filter
      (recordMatches { min_length := some 5, max_length := some 3 })).length = 0
    have hnone : ∀ r : StoredString,
        recordMatches { min_length := some 5, max_length := some 3 } r = false := by
      intro r
      by_cases h5 : r.properties.length < 5
      · simp [recordMatches, h5]
      · have h3 : 3 < r.properties.length := by omega
        simp [recordMatches, h3]
    rw [List.length_eq_zero]
    apply List.filter_eq_nil_iff.mpr
    intro r _
    rw [hnone r]
    simp

/-- Spec-side list of rule effects on the lowercased query, one update per
heuristic rule that fires, in the spec's order: palindrome keywords set
`is_palindrome` true; "single word"/"one word" set `word_count` 1; "longer
than N"/"more than N" (first numeric capture) sets `min_length` to N + 1;
then the `contains_character`-producing rules — letter pattern, vowel,
presence of "z" — so that applying the updates in order makes the last
firing rule win. -/
def lenUpdates (o : Option Nat) : List (Filters → Filters) :=
  match o with
  | some n => [fun (f : Filters) => { f with min_length := some (n + 1) }]
  | none => []

/-- Update list of the letter rule: one update when a letter was captured. -/
def letterUpdates (o : Option Char) : List (Filters → Filters) :=
  match o with
  | some c => [fun (f : Filters) => { f with contains_character := some c }]
  | none => []

/-- The spec-side rule effects, assembled in the spec's order. -/
def specRuleUpdates (lq : List Char) : List (Filters → Filters) :=
  (if containsSub ("palindromic".data) lq || containsSub ("palindrome".data) lq
    then [fun (f : Filters) => { f with is_palindrome := some true }] else [])
  ++ (if containsSub ("single word".data) lq || containsSub ("one word".data) lq
    then [fun (f : Filters) => { f with word_count := some 1 }] else [])
  ++ lenUpdates (findLenMatch lq)
  ++ letterUpdates (findLetterMatch lq)
  ++ (if containsSub ("vowel".data) lq
    then [fun (f : Filters) => { f with contains_character := some 'a' }] else [])
  ++ (if lq.contains 'z'
    then [fun (f : Filters) => { f with contains_character := some 'z' }] else [])

/-- Spec-side interpreter, written from the claim wording: apply the
updates of the firing rules in order to the empty filter set
(last write wins), and return null when no rule fires. -/
def specNLInterpret (q : String) : Except String (Option Filters) :=
  if (specRuleUpdates (lowerL q.data)).isEmpty then Except.ok none
  else Except.ok
    (some ((specRuleUpdates (lowerL q.data)).foldl (fun f u => u f) {}))

lemma pal_is (lq : List Char) (f : Filters) :
    (nlRulePalindrome lq f).is_palindrome =
      if (containsSub ("palindromic".data) lq || containsSub ("palindrome".data) lq) = true
      then some true else f.is_palindrome := by
  unfold nlRulePalindrome
  split <;> simp [*]

lemma pal_min (lq : List Char) (f : Filters) :
    (nlRulePalindrome lq f).min_length = f.min_length := by
  unfold nlRulePalindrome
  split <;> rfl

lemma pal_max (lq : List Char) (f : Filters) :
    (nlRulePalindrome lq f).max_length = f.max_length := by
  unfold nlRulePalindrome
  split <;> rfl

lemma pal_wc (lq : List Char) (f : Filters) :
    (nlRulePalindrome lq f).word_count = f.word_count := by
  unfold nlRulePalindrome
  split <;> rfl

lemma pal_cc (lq : List Char) (f : Filters) :
    (nlRulePalindrome lq f).contains_character = f.contains_character := by
  unfold nlRulePalindrome
  split <;> rfl

lemma sw_wc (lq : List Char) (f : Filters) :
    (nlRuleSingleWord lq f).word_count =
      if (containsSub ("single word".data) lq || containsSub ("one word".data) lq) = true
      then some 1 else f.word_count := by
  unfold nlRuleSingleWord
  split <;> simp [*]

lemma sw_is (lq : List Char) (f : Filters) :
    (nlRuleSingleWord lq f).is_palindrome = f.is_palindrome := by
  unfold nlRuleSingleWord
  split <;> rfl

lemma sw_min (lq : List Char) (f : Filters) :
    (nlRuleSingleWord lq f).min_length = f.min_length := by
  unfold nlRuleSingleWord
  split <;> rfl

lemma sw_max (lq : List Char) (f : Filters) :
    (nlRuleSingleWord lq f).max_length = f.max_length := by
  unfold nlRuleSingleWord
  split <;> rfl

lemma sw_cc (lq : List Char) (f : Filters) :
    (nlRuleSingleWord lq f).contains_character = f.contains_character := by
  unfold nlRuleSingleWord
  split <;> rfl

lemma len_min (lq : List Char) (f : Filters) :
    (nlRuleLen lq f).min_length =
      match findLenMatch lq with
      | some n => some (n + 1)
      | none => f.min_length := by
  cases h : findLenMatch lq <;> simp [nlRuleLen, h]

lemma len_is (lq : List Char) (f : Filters) :
    (nlRuleLen lq f).is_palindrome = f.is_palindrome := by
  cases h : findLenMatch lq <;> simp [nlRuleLen, h]

lemma len_max (lq : List Char) (f : Filters) :
    (nlRuleLen lq f).max_length = f.max_length := by
  cases h : findLenMatch lq <;> simp [nlRuleLen, h]

lemma len_wc (lq : List Char) (f : Filters) :
    (nlRuleLen lq f).word_count = f.word_count := by
  cases h : findLenMatch lq <;> simp [nlRuleLen, h]

lemma len_cc (lq : List Char) (f : Filters) :
    (nlRuleLen lq f).contains_character = f.contains_character := by
  cases h : findLenMatch lq <;> simp [nlRuleLen, h]

lemma letter_cc (lq : List Char) (f : Filters) :
    (nlRuleLetter lq f).contains_character =
      match findLetterMatch lq with
      | some c => some c
      | none => f.contains_character := by
  cases h : findLetterMatch lq <;> simp [nlRuleLetter, h]

lemma letter_is (lq : List Char) (f : Filters) :
    (nlRuleLetter lq f).is_palindrome = f.is_palindrome := by
  cases h : findLetterMatch lq <;> simp [nlRuleLetter, h]

lemma letter_min (lq : List Char) (f : Filters) :
    (nlRuleLetter lq f).min_length = f.min_length := by
  cases h : findLetterMatch lq <;> simp [nlRuleLetter, h]

lemma letter_max (lq : List Char) (f : Filters) :
    (nlRuleLetter lq f).max_length = f.max_length := by
  cases h : findLetterMatch lq <;> simp [nlRuleLetter, h]

lemma letter_wc (lq : List Char) (f : Filters) :
    (nlRuleLetter lq f).word_count = f.word_count := by
  cases h : findLetterMatch lq <;> simp [nlRuleLetter, h]

lemma vowel_cc (lq : List Char) (f : Filters) :
    (nlRuleVowel lq f).contains_character =
      if containsSub ("vowel".data) lq = true
      then some 'a' else f.contains_character := by
  unfold nlRuleVowel
  split <;> simp [*]

lemma vowel_is (lq : List Char) (f : Filters) :
    (nlRuleVowel lq f).is_palindrome = f.is_palindrome := by
  unfold nlRuleVowel
  split <;> rfl

lemma vowel_min (lq : List Char) (f : Filters) :
    (nlRuleVowel lq f).min_length = f.min_length := by
  unfold nlRuleVowel
  split <;> rfl

lemma vowel_max (lq : List Char) (f : Filters) :
    (nlRuleVowel lq f).max_length = f.max_length := by
  unfold nlRuleVowel
  split <;> rfl

lemma vowel_wc (lq : List Char) (f : Filters) :
    (nlRuleVowel lq f).word_count = f.word_count := by
  unfold nlRuleVowel
  split <;> rfl

lemma zr_cc (lq : List Char) (f : Filters) :
    (nlRuleZ lq f).contains_character =
      if lq.contains 'z' = true then some 'z' else f.contains_character := by
  unfold nlRuleZ
  split <;> simp [*]

lemma zr_is (lq : List Char) (f : Filters) :
    (nlRuleZ lq f).is_palindrome = f.is_palindrome := by
  unfold nlRuleZ
  split <;> rfl

lemma zr_min (lq : List Char) (f : Filters) :
    (nlRuleZ lq f).min_length = f.min_length := by
  unfold nlRuleZ
  split <;> rfl

lemma zr_max (lq : List Char) (f : Filters) :
    (nlRuleZ lq f).max_length = f.max_length := by
  unfold nlRuleZ
  split <;> rfl

lemma zr_wc (lq : List Char) (f : Filters) :
    (nlRuleZ lq f).word_count = f.word_count := by
  unfold nlRuleZ
  split <;> rfl

lemma buildNLFilters_max_none (q : String) :
    (buildNLFilters q).max_length = none := by
  show (nlRuleZ _ _).max_length = none
  rw [zr_max, vowel_max, letter_max, len_max, sw_max, pal_max]

lemma build_is (q : String) :
    (buildNLFilters q).is_palindrome =
      if (containsSub ("palindromic".data) (lowerL q.data)
          || containsSub ("palindrome".data) (lowerL q.data)) = true
      then some true else none := by
  show (nlRuleZ _ _).is_palindrome = _
  rw [zr_is, vowel_is, letter_is, len_is, sw_is, pal_is]

lemma build_wc (q : String) :
    (buildNLFilters q).word_count =
      if (containsSub ("single word".data) (lowerL q.data)
          || containsSub ("one word".data) (lowerL q.data)) = true
      then some 1 else none := by
  show (nlRuleZ _ _).word_count = _
  rw [zr_wc, vowel_wc, letter_wc, len_wc, sw_wc, pal_wc]

lemma build_min (q : String) :
    (buildNLFilters q).min_length =
      match findLenMatch (lowerL q.data) with
      | some n => some (n + 1)
      | none => none := by
  show (nlRuleZ _ _).min_length = _
  rw [zr_min, vowel_min, letter_min, len_min, sw_min, pal_min]

lemma build_cc (q : String) :
    (buildNLFilters q).contains_character =
      if (lowerL q.data).contains 'z' = true then some 'z'
      else if containsSub ("vowel".data) (lowerL q.data) = true then some 'a'
      else match findLetterMatch (lowerL q.data) with
        | some c => some c
        | none => none := by
  show (nlRuleZ _ _).contains_character = _
  rw [zr_cc, vowel_cc, letter_cc, len_cc, sw_cc, pal_cc]

lemma foldl_ite_piece (c : Bool) (u : Filters → Filters) (f : Filters) :
    List.foldl (fun x g => g x) f (if c = true then [u] else []) =
      if c = true then u f else f := by
  cases c <;> simp

lemma foldl_len_piece (lq : List Char) (f : Filters) :
    List.foldl (fun x g => g x) f (lenUpdates (findLenMatch lq)) = nlRuleLen lq f := by
  cases h : findLenMatch lq <;> simp [lenUpdates, nlRuleLen, h]

lemma foldl_letter_piece (lq : List Char) (f : Filters) :
    List.foldl (fun x g => g x) f (letterUpdates (findLetterMatch lq)) =
      nlRuleLetter lq f := by
  cases h : findLetterMatch lq <;> simp [letterUpdates, nlRuleLetter, h]

lemma spec_fold_eq (lq : List Char) (f0 : Filters) :
    (specRuleUpdates lq).foldl (fun f u => u f) f0 =
      nlRuleZ lq (nlRuleVowel lq (nlRuleLetter lq (nlRuleLen lq
        (nlRuleSingleWord lq (nlRulePalindrome lq f0))))) := by
  unfold specRuleUpdates
  simp only [List.foldl_append, foldl_ite_piece, foldl_len_piece, foldl_letter_piece]
  rfl

lemma isEmpty_piece_ite (c : Bool) (u : Filters → Filters) :
    (if c = true then [u] else []).isEmpty = !c := by
  cases c <;> simp

lemma isEmpty_append_pieces (l1 l2 : List (Filters → Filters)) :
    (l1 ++ l2).isEmpty = (l1.isEmpty && l2.isEmpty) := by
  cases l1 <;> simp

lemma isEmpty_lenUpdates (o : Option Nat) : (lenUpdates o).isEmpty = o.isNone := by
  cases o <;> rfl

lemma isEmpty_letterUpdates (o : Option Char) :
    (letterUpdates o).isEmpty = o.isNone := by
  cases o <;> rfl

lemma filtersIsEmpty_build (q : String) :
    filtersIsEmpty (buildNLFilters q) =
      (specRuleUpdates (lowerL q.data)).isEmpty := by
  rw [filtersIsEmpty, build_is, build_min, buildNLFilters_max_none, build_wc, build_cc]
  unfold specRuleUpdates
  simp only [isEmpty_append_pieces, isEmpty_piece_ite, isEmpty_lenUpdates,
    isEmpty_letterUpdates]
  by_cases h1 : (containsSub ("palindromic".data) (lowerL q.data)
      || containsSub ("palindrome".data) (lowerL q.data)) = true <;>
  by_cases h2 : (containsSub ("single word".data) (lowerL q.data)
      || containsSub ("one word".data) (lowerL q.data)) = true <;>
  cases h3 : findLenMatch (lowerL q.data) <;>
  cases h4 : findLetterMatch (lowerL q.data) <;>
  by_cases h5 : containsSub ("vowel".data) (lowerL q.data) = true <;>
  by_cases h6 : 'z' ∈ lowerL q.data <;>
  simp [h1, h2, h3, h4, h5, h6]

lemma conflictFire_build (q : String) :
    conflictFire (buildNLFilters q) = false := by
  have hm := buildNLFilters_max_none q
  cases hmin : (buildNLFilters q).min_length <;> simp [conflictFire, hm, hmin]

lemma buildNLFilters_eq_spec (q : String) :
    parseNaturalQuery q = specNLInterpret q := by
  show (if filtersIsEmpty (buildNLFilters q) = true then Except.ok none
      else if conflictFire (buildNLFilters q) = true
        then Except.error ("Conflicting filters")
        else Except.ok (some (buildNLFilters q))) = _
  unfold specNLInterpret
  rw [spec_fold_eq, filtersIsEmpty_build]
  by_cases he : (specRuleUpdates (lowerL q.data)).isEmpty = true
  · simp [he]
  · have hcf := conflictFire_build q
    simp [he, hcf]
    rfl

lemma parseNaturalQuery_ok (q : String) :
    ∃ o : Option Filters, parseNaturalQuery q = Except.ok o := by
  unfold parseNaturalQuery
  by_cases he : filtersIsEmpty (buildNLFilters q)
  · exact ⟨none, by simp [he]⟩
  · exact ⟨some (buildNLFilters q), by simp [he, conflictFire_build q]⟩

/-- Claim C8: the interpreter returns exactly the filter set produced by
the heuristic rules applied to the lowercased query — palindrome keywords,
"single word"/"one word", "longer than N"/"more than N" with first numeric
capture giving `min_length` N + 1, and the `contains_character` rules
(letter pattern, vowel, presence of "z") applied last-write-wins — and
null when no rule fires; the three example queries evaluate as the spec
says. -/
theorem natural_query_interpret_spec :
    (∀ q : String, parseNaturalQuery q = specNLInterpret q)
    ∧ parseNaturalQuery ("all single word palindromic strings") =
        Except.ok (some { is_palindrome := some true, word_count := some 1 })
    ∧ parseNaturalQuery ("strings longer than 5") =
        Except.ok (some { min_length := some 6 })
    ∧ parseNaturalQuery ("gibberish") = Except.ok none :=
  ⟨buildNLFilters_eq_spec, by rfl, by rfl, by rfl⟩

/-- Claim C10: the interpreter is total and never raises the conflict
error: no heuristic rule assigns `max_length`, so every query yields
either null or a filter set. -/
theorem interpret_total_spec :
    ∀ q : String,
      (buildNLFilters q).max_length = none
      ∧ ∃ o : Option Filters, parseNaturalQuery q = Except.ok o := by
  intro q
  exact ⟨buildNLFilters_max_none q, parseNaturalQuery_ok q⟩

/-- Claim C9 is false of the code: no query produces a filter set with
both bounds, and the interpreter never fails with the conflicting-filters
error. -/
theorem no_conflicting_filters_query :
    ¬ ∃ q : String,
      (∃ m M : Nat, (buildNLFilters q).min_length = some m
        ∧ (buildNLFilters q).max_length = some M ∧ M < m)
      ∧ parseNaturalQuery q = Except.error ("Conflicting filters") := by
  rintro ⟨q, ⟨m, M, _, hM, _⟩, _⟩
  rw [buildNLFilters_max_none q] at hM
  cases hM

/-- Claim C9 amended: no heuristic rule assigns `max_length`, so the
interpreter never fails with the conflicting-filters error; the conflict
branch itself is dead code, though its guard would fire on any filter set
carrying both bounds (nonzero, per JS truthiness) with
`min_length > max_length`. -/
theorem conflict_branch_dead_spec :
    (∀ q : String,
      (buildNLFilters q).max_length = none
      ∧ parseNaturalQuery q ≠ Except.error ("Conflicting filters"))
    ∧ (∀ (f : Filters) (m M : Nat),
      f.min_length = some m → f.max_length = some M → 0 < M → M < m →
      conflictFire f = true) := by
  constructor
  · intro q
    refine ⟨buildNLFilters_max_none q, ?_⟩
    obtain ⟨o, ho⟩ := parseNaturalQuery_ok q
    rw [ho]
    simp
  · intro f m M h1 h2 h3 h4
    simp [conflictFire, h1, h2]
    omega

/-- Claim C1: the spec's route table promises that a GET for
/strings/filter-by-natural-language with a parseable free-text `query`
reaches the natural-language handler and answers 200 with the interpreted
query attached, but because src/index.js registers `/strings/:value`
(line 127) before `/strings/filter-by-natural-language` (line 210),
dispatch picks the `:value` handler, which treats the literal path segment
as a stored value and answers 404 on a store without it — while the
natural-language handler itself, applied directly to the same request,
would answer 200. -/
theorem natural_language_route_shadowed :
    dispatch Method.get [("strings"), ("filter-by-natural-language")] =
      some RouteTag.getStringByValue
    ∧ (∀ hash : String → String,
        handleGetByValue hash [] ("filter-by-natural-language") =
          HttpResponse.errorJson 404 ("String does not exist in the system"))
    ∧ handleNL [] (some ("all single word palindromic strings")) =
        HttpResponse.nlJson 200
          { data := [], count := 0
          , filters_applied := { is_palindrome := some true, word_count := some 1 } }
          ("all single word palindromic strings")
          { is_palindrome := some true, word_count := some 1 } := by
  refine ⟨by rfl, ?_, by rfl⟩
  intro hash
  rfl

end StringAnalyzer
